import Mathlib

/-!
Verification development for the inspection-plan generator
(`generate_inspection_plan.py`).

The Python source is shallowly embedded: Python floats are idealised as
rationals `ℚ` (and, where genuine Euclidean lengths are asserted, as real
numbers `ℝ`), Python dicts keyed by waypoint names become functions
`String → Option PatrolPoint`, and fallible code returns `Option`/`Except`.
Python's builtin `round(x, n)` is banker's rounding (round half to even),
modelled by `pyRound`.  Python's `min(xs, key=k)` returns the first element
attaining the minimal key (it replaces the running best only on a strict
decrease), modelled by `pyMinBy`.
-/

/-- Python `round` to an integer: round half to even (banker's rounding). -/
def pyRoundHalfEven (x : ℚ) : ℤ :=
  let f := ⌊x⌋
  let r := x - (f : ℚ)
  if r < 1/2 then f
  else if 1/2 < r then f + 1
  else if f % 2 = 0 then f else f + 1

/-- Python `round(x, n)` on an idealised (rational) float. -/
def pyRound (x : ℚ) (n : ℕ) : ℚ := (pyRoundHalfEven (x * 10 ^ n) : ℚ) / 10 ^ n

/-- One entry of `patrol_points_arm.yaml`: a named point with coordinates and
an arm-task code (`arm_task` in the YAML). -/
structure PatrolPoint where
  x : ℚ
  y : ℚ
  z : ℚ
  arm_task : ℤ
deriving DecidableEq

/-- The registry `point_dict = {p["name"]: p for p in points}`: a lookup from
waypoint name to its definition (names are unique keys in a Python dict). -/
abbrev Registry : Type := String → Option PatrolPoint

/-- One record of the produced route, as built by the Python code
(dicts with keys `point_name`, `position`, `action`, `arm_task_type`). -/
structure RouteWaypoint where
  point_name : String
  position : ℚ × ℚ × ℚ
  action : String
  arm_task_type : ℤ
deriving DecidableEq

/-- `position[:2]` — the 2D projection used for all distance computations. -/
def pos2 (w : RouteWaypoint) : ℚ × ℚ := (w.position.1, w.position.2.1)

/-- Squared 2D distance.  `math.hypot` comparisons between distances agree
with comparisons between squared distances (the square root is strictly
monotone on nonnegatives), which keeps the greedy selection computable. -/
def sqDist (p q : ℚ × ℚ) : ℚ := (p.1 - q.1) ^ 2 + (p.2 - q.2) ^ 2

/-- `[round(p["x"], 3), round(p["y"], 3), round(p["z"], 3)]`. -/
def roundPos (p : PatrolPoint) : ℚ × ℚ × ℚ := (pyRound p.x 3, pyRound p.y 3, pyRound p.z 3)

/-- The start/end records built inside `solve_tsp_with_fixed_ends`:
action is the literal "arrive" and `arm_task_type` the literal `0`. -/
def mkEndpoint (name : String) (p : PatrolPoint) : RouteWaypoint :=
  { point_name := name, position := roundPos p, action := "arrive", arm_task_type := 0 }

/-- The greedy key: `euclidean_distance(current_pos, w["position"][:2])`,
up to the order-preserving square. -/
def nnKey (cur : ℚ × ℚ) (w : RouteWaypoint) : ℚ := sqDist cur (pos2 w)

/-- Python `min(l, key=key)` (first minimum wins; `none` on the empty list,
where Python would raise — `min` is only called on a non-empty pool). -/
def pyMinBy (key : RouteWaypoint → ℚ) : List RouteWaypoint → Option RouteWaypoint
  | [] => none
  | w :: ws =>
    match pyMinBy key ws with
    | none => some w
    | some m => some (if key m < key w then m else w)

/-- The greedy `while unvisited:` loop of `solve_tsp_with_fixed_ends`,
with explicit fuel (the loop removes one element per iteration, so fuel
`l.length` is exact).  `l.erase w` is Python's `unvisited.remove(nearest)`:
it removes the first element equal to `w`. -/
def greedyGo : ℕ → ℚ × ℚ → List RouteWaypoint → List RouteWaypoint
  | 0, _, _ => []
  | fuel + 1, cur, l =>
    match pyMinBy (nnKey cur) l with
    | none => []
    | some w => w :: greedyGo fuel (pos2 w) (l.erase w)

/-- The ordered middle segment produced by the greedy loop. -/
def greedyOrder (cur : ℚ × ℚ) (l : List RouteWaypoint) : List RouteWaypoint :=
  greedyGo l.length cur l

def entryName : String := "入口"

def exitName : String := "出口"

/-- `solve_tsp_with_fixed_ends(middle_waypoints, point_dict)`.
A missing entry/exit raises `ValueError` in Python, modelled as
`Except.error` (the Python messages name the missing point). -/
def solve_tsp_with_fixed_ends (middle_waypoints : List RouteWaypoint)
    (point_dict : Registry) : Except String (List RouteWaypoint) :=
  match point_dict entryName with
  | none => Except.error "patrol_points_arm.yaml 中缺少 入口 点"
  | some ent =>
    match point_dict exitName with
    | none => Except.error "patrol_points_arm.yaml 中缺少 出口 点"
    | some ex =>
      let start_point := mkEndpoint entryName ent
      let end_point := mkEndpoint exitName ex
      if middle_waypoints = [] then Except.ok [start_point, end_point]
      else Except.ok (start_point :: (greedyOrder (pos2 start_point) middle_waypoints ++ [end_point]))

/-- One item of the decision's `inspection_plan` list; `none` models an
absent key (Python `item.get(...)` returning `None`). -/
structure DecisionItem where
  point_name : Option String
  action : Option String
deriving DecidableEq

/-- A parsed decision object, restricted to the two keys the pipeline reads
(`llm_plan.get("decision_reason")`, `llm_plan.get("inspection_plan")`);
`none` models an absent key. -/
structure Decision where
  decision_reason : Option String
  inspection_plan : Option (List DecisionItem)
deriving DecidableEq

/-- Python truthiness of the decision dict: a dict is truthy iff non-empty,
i.e. (in this two-key model) iff at least one key is present. -/
def Decision.truthy (d : Decision) : Bool :=
  d.decision_reason.isSome || d.inspection_plan.isSome

/-- `action_map.get(item.get("action"), "unknown")`. -/
def action_map : Option String → String
  | some "arrive" => "arrive"
  | some "task_1" => "execute_arm_task_1"
  | some "task_2" => "execute_arm_task_2"
  | _ => "unknown"

/-- The body of the `for item in ...` loop of `enrich_with_coordinates`:
`if not name or name not in point_dict: continue` (note: `not name` also
drops a present-but-empty name), then the entry/exit filter, then the
enriched record. -/
def enrichItem (point_dict : Registry) (item : DecisionItem) : Option RouteWaypoint :=
  match item.point_name with
  | none => none
  | some name =>
    if name = "" then none
    else
      match point_dict name with
      | none => none
      | some p =>
        if name = entryName ∨ name = exitName then none
        else some { point_name := name, position := roundPos p,
                    action := action_map item.action, arm_task_type := p.arm_task }

/-- `enrich_with_coordinates(llm_plan, point_dict)`. -/
def enrich_with_coordinates (llm_plan : Decision) (point_dict : Registry) :
    List RouteWaypoint :=
  (llm_plan.inspection_plan.getD []).filterMap (enrichItem point_dict)

/-!
## The decision-ingestion parser

`json.loads` is modelled by a fuel-based recursive-descent parser over the
character list of the input.  Numbers are parsed exactly into `ℚ`
(idealising Python floats), strings support the JSON escapes
(a `\uXXXX` escape is taken as a single scalar value), and the Python
extensions `NaN`, `Infinity`, `-Infinity` (accepted by `json.loads` by
default) are kept as `Json.special` atoms.  As in Python, parsing succeeds
only if the whole input is consumed up to trailing JSON whitespace.
-/

/-- A parsed JSON value.  An object keeps its key/value pairs in input
order (Python would collapse duplicate keys; no claim depends on that). -/
inductive Json where
  | null : Json
  | bool : Bool → Json
  | num : ℚ → Json
  | str : String → Json
  | arr : List Json → Json
  | obj : List (String × Json) → Json
  | special : String → Json

def lbraceChar : Char := Char.ofNat 123

def rbraceChar : Char := Char.ofNat 125

def backquoteChar : Char := Char.ofNat 96

/-- JSON whitespace (the only characters `json.loads` skips). -/
def isJsonWs (c : Char) : Bool := c = ' ' || c = '\t' || c = '\n' || c = '\r'

def skipJsonWs (cs : List Char) : List Char := cs.dropWhile isJsonWs

/-- Whitespace for Python's `str.strip()` and for the regex class `\s`
(ASCII part: space, tab, newline, carriage return, form feed,
vertical tab). -/
def isPyWs (c : Char) : Bool :=
  c = ' ' || c = '\t' || c = '\n' || c = '\r' || c = Char.ofNat 12 || c = Char.ofNat 11

/-- `text.strip()`. -/
def pyStrip (s : String) : String :=
  String.mk (((s.data.dropWhile isPyWs).reverse.dropWhile isPyWs).reverse)

def stripPre (pat cs : List Char) : Option (List Char) :=
  match pat, cs with
  | [], rest => some rest
  | p :: ps, c :: rest => if c = p then stripPre ps rest else none
  | _ :: _, [] => none

def digitsToNat (ds : List Char) : ℕ :=
  ds.foldl (fun acc c => 10 * acc + (c.toNat - 48)) 0

def hexVal (c : Char) : Option ℕ :=
  if c.isDigit then some (c.toNat - 48)
  else if 'a' ≤ c ∧ c ≤ 'f' then some (c.toNat - 87)
  else if 'A' ≤ c ∧ c ≤ 'F' then some (c.toNat - 55)
  else none

def escChar (c : Char) : Option Char :=
  if c = '"' then some '"'
  else if c = '\\' then some '\\'
  else if c = '/' then some '/'
  else if c = 'b' then some (Char.ofNat 8)
  else if c = 'f' then some (Char.ofNat 12)
  else if c = 'n' then some (Char.ofNat 10)
  else if c = 'r' then some (Char.ofNat 13)
  else if c = 't' then some (Char.ofNat 9)
  else none

/-- Parse the remainder of a JSON string after its opening quote. -/
def parseStringRest : ℕ → List Char → Option (String × List Char)
  | 0, _ => none
  | fuel + 1, cs =>
    match cs with
    | [] => none
    | c :: rest =>
      if c = '"' then some ("", rest)
      else if c = '\\' then
        match rest with
        | [] => none
        | e :: rest2 =>
          if e = 'u' then
            match rest2 with
            | h1 :: h2 :: h3 :: h4 :: rest3 =>
              match hexVal h1, hexVal h2, hexVal h3, hexVal h4 with
              | some a, some b, some c2, some d =>
                (parseStringRest fuel rest3).map
                  (fun p => (String.mk (Char.ofNat (4096 * a + 256 * b + 16 * c2 + d) :: p.1.data), p.2))
              | _, _, _, _ => none
            | _ => none
          else
            match escChar e with
            | some ec => (parseStringRest fuel rest2).map (fun p => (String.mk (ec :: p.1.data), p.2))
            | none => none
      else if c.toNat < 32 then none
      else (parseStringRest fuel rest).map (fun p => (String.mk (c :: p.1.data), p.2))

/-- Parse a JSON number (or `-Infinity`) at the head of the input. -/
def parseNumber (cs : List Char) : Option (Json × List Char) :=
  let signSplit : Bool × List Char :=
    match cs with
    | c :: r => if c = '-' then (true, r) else (false, cs)
    | [] => (false, cs)
  let neg := signSplit.1
  match signSplit.2 with
  | [] => none
  | c :: r =>
    if c = 'I' then
      if neg then
        (stripPre ['n', 'f', 'i', 'n', 'i', 't', 'y'] r).map
          (fun rr => (Json.special "-Infinity", rr))
      else none
    else
      let ipOpt : Option (List Char × List Char) :=
        if c = '0' then some (['0'], r)
        else if c.isDigit then some (c :: r.takeWhile Char.isDigit, r.dropWhile Char.isDigit)
        else none
      match ipOpt with
      | none => none
      | some (ip, rest1) =>
        let fracRes : Option (List Char × List Char) :=
          match rest1 with
          | d :: r2 =>
            if d = '.' then
              let ds := r2.takeWhile Char.isDigit
              if ds = [] then none else some (ds, r2.dropWhile Char.isDigit)
            else some ([], rest1)
          | [] => some ([], rest1)
        match fracRes with
        | none => none
        | some (fds, rest2) =>
          let expRes : Option (Bool × List Char × List Char) :=
            match rest2 with
            | e :: r3 =>
              if e = 'e' ∨ e = 'E' then
                let esignSplit : Bool × List Char :=
                  match r3 with
                  | s :: r5 => if s = '-' then (true, r5) else if s = '+' then (false, r5) else (false, r3)
                  | [] => (false, r3)
                let ds := esignSplit.2.takeWhile Char.isDigit
                if ds = [] then none
                else some (esignSplit.1, ds, esignSplit.2.dropWhile Char.isDigit)
              else some (false, [], rest2)
            | [] => some (false, [], rest2)
          match expRes with
          | none => none
          | some (esign, eds, rest3) =>
            let k : ℕ := fds.length
            let m : ℚ := (digitsToNat ip : ℚ) + (digitsToNat fds : ℚ) / 10 ^ k
            let ev : ℤ := if esign then -(digitsToNat eds : ℤ) else (digitsToNat eds : ℤ)
            let v : ℚ := m * (10 : ℚ) ^ ev
            some (Json.num (if neg then -v else v), rest3)

/-- Parser modes: a single value, the items of an array after its first
element position, or the members of an object after its first key
position. -/
inductive PMode where
  | value : PMode
  | arrItems : List Json → PMode
  | objItems : List (String × Json) → PMode

/-- The recursive-descent core of `json.loads`, fuelled for termination. -/
def parseCore : ℕ → PMode → List Char → Option (Json × List Char)
  | 0, _, _ => none
  | fuel + 1, PMode.value, cs =>
    match cs with
    | [] => none
    | c :: rest =>
      if c = lbraceChar then
        let r2 := skipJsonWs rest
        match r2 with
        | [] => none
        | d :: r3 =>
          if d = rbraceChar then some (Json.obj [], r3)
          else parseCore fuel (PMode.objItems []) r2
      else if c = '[' then
        let r2 := skipJsonWs rest
        match r2 with
        | [] => none
        | d :: r3 =>
          if d = ']' then some (Json.arr [], r3)
          else parseCore fuel (PMode.arrItems []) r2
      else if c = '"' then
        (parseStringRest (rest.length + 1) rest).map (fun p => (Json.str p.1, p.2))
      else if c = 't' then (stripPre ['r', 'u', 'e'] rest).map (fun r => (Json.bool true, r))
      else if c = 'f' then (stripPre ['a', 'l', 's', 'e'] rest).map (fun r => (Json.bool false, r))
      else if c = 'n' then (stripPre ['u', 'l', 'l'] rest).map (fun r => (Json.null, r))
      else if c = 'N' then (stripPre ['a', 'N'] rest).map (fun r => (Json.special "NaN", r))
      else if c = 'I' then
        (stripPre ['n', 'f', 'i', 'n', 'i', 't', 'y'] rest).map
          (fun r => (Json.special "Infinity", r))
      else parseNumber cs
  | fuel + 1, PMode.arrItems acc, cs =>
    match parseCore fuel PMode.value cs with
    | none => none
    | some (v, rest) =>
      match skipJsonWs rest with
      | [] => none
      | d :: r2 =>
        if d = ',' then parseCore fuel (PMode.arrItems (v :: acc)) (skipJsonWs r2)
        else if d = ']' then some (Json.arr (v :: acc).reverse, r2)
        else none
  | fuel + 1, PMode.objItems acc, cs =>
    match cs with
    | [] => none
    | c :: rest =>
      if c = '"' then
        match parseStringRest (rest.length + 1) rest with
        | none => none
        | some (key, r2) =>
          match skipJsonWs r2 with
          | [] => none
          | d :: r3 =>
            if d = ':' then
              match parseCore fuel PMode.value (skipJsonWs r3) with
              | none => none
              | some (v, r4) =>
                match skipJsonWs r4 with
                | [] => none
                | e :: r5 =>
                  if e = ',' then parseCore fuel (PMode.objItems ((key, v) :: acc)) (skipJsonWs r5)
                  else if e = rbraceChar then some (Json.obj ((key, v) :: acc).reverse, r5)
                  else none
            else none
      else none

/-- `json.loads`: parse one value, allowing surrounding JSON whitespace and
nothing else. -/
def json_loads (s : String) : Option Json :=
  let cs := skipJsonWs s.data
  match parseCore (2 * cs.length + 8) PMode.value cs with
  | some (v, rest) => if skipJsonWs rest = [] then some v else none
  | none => none

/-!
## The three extraction tiers of `extract_json_from_text`

Tier 2 is the regex search for a fenced block (three backquotes,
an optional case-insensitive `json` tag, whitespace, then a lazily matched
brace group, whitespace, three backquotes; `re.DOTALL` lets the lazy group
cross line breaks).  For this pattern the backtracking search is
deterministic: scan start positions left to right, and close the group at
the first closing brace followed by whitespace and a fence.  Tier 3 is the
greedy `\x7b.*\x7d` search: the span from the first opening brace to the
last closing brace after it.
-/

def isRegexWs (c : Char) : Bool := isPyWs c

def fenceHead (cs : List Char) : Bool :=
  match cs with
  | a :: b :: c :: _ => a = backquoteChar && b = backquoteChar && c = backquoteChar
  | _ => false

/-- The optional case-insensitive literal `json` right after the fence. -/
def stripJsonTag (cs : List Char) : List Char :=
  match cs with
  | j :: s :: o :: n :: rest =>
    if (j = 'j' ∨ j = 'J') ∧ (s = 's' ∨ s = 'S') ∧ (o = 'o' ∨ o = 'O') ∧ (n = 'n' ∨ n = 'N')
    then rest else j :: s :: o :: n :: rest
  | _ => cs

/-- Lazily extend the group: stop at the first closing brace that is
followed (after regex whitespace) by a closing fence. -/
def lazyClose : List Char → List Char → Option (List Char)
  | acc, c :: rest =>
    if c = rbraceChar ∧ fenceHead (rest.dropWhile isRegexWs) then some acc.reverse
    else lazyClose (c :: acc) rest
  | _, [] => none

/-- Try the fenced-block pattern anchored at the head of `cs`; on success
return the brace group (regex group 1). -/
def fenceAt (cs : List Char) : Option String :=
  match cs with
  | a :: b :: c :: rest =>
    if a = backquoteChar ∧ b = backquoteChar ∧ c = backquoteChar then
      let r2 := (stripJsonTag rest).dropWhile isRegexWs
      match r2 with
      | d :: body =>
        if d = lbraceChar then
          match lazyClose [] body with
          | some inner => some (String.mk (lbraceChar :: (inner ++ [rbraceChar])))
          | none => none
        else none
      | [] => none
    else none
  | _ => none

/-- `re.search` for the fenced-block pattern: leftmost start position wins. -/
def fencedSearch : List Char → Option String
  | [] => none
  | c :: rest =>
    match fenceAt (c :: rest) with
    | some g => some g
    | none => fencedSearch rest

/-- `re.search(r"\x7b.*\x7d", text, re.DOTALL)`: the greedy span from the
first opening brace to the last closing brace strictly after it. -/
def braceSpan (t : String) : Option String :=
  let cs := t.data
  match cs.findIdx? (fun c => c = lbraceChar), cs.reverse.findIdx? (fun c => c = rbraceChar) with
  | some i, some jr =>
    let j := cs.length - 1 - jr
    if i < j then some (String.mk ((cs.drop i).take (j - i + 1))) else none
  | _, _ => none

/-- Tier 3 of `extract_json_from_text`: the brace span, kept only if it
parses. -/
def braceTier (t : String) : Option String :=
  match braceSpan t with
  | some s2 => if (json_loads s2).isSome then some s2 else none
  | none => none

/-- `extract_json_from_text(text)`: strip, then the three tiers in order,
each returning the candidate STRING on parse success. -/
def extract_json_from_text (text : String) : Option String :=
  let t := pyStrip text
  if (json_loads t).isSome then some t
  else
    match fencedSearch t.data with
    | some g => if (json_loads g).isSome then some g else braceTier t
    | none => braceTier t

/-- The observable outcome of the `Generation.call` request inside
`call_llm`: a response with an HTTP-like status and output text, or an
exception raised anywhere inside the `try` block. -/
inductive LLMCallOutcome where
  | ok : ℕ → String → LLMCallOutcome
  | raised : String → LLMCallOutcome

/-- `call_llm`: non-200 status or any exception yields `None`; otherwise
the extracted candidate string is re-parsed with `json.loads`. -/
def call_llm : LLMCallOutcome → Option Json
  | LLMCallOutcome.raised _ => none
  | LLMCallOutcome.ok status content =>
    if status ≠ 200 then none
    else
      match extract_json_from_text content with
      | none => none
      | some s => json_loads s

/-!
## Euclidean distances, plan assembly, and the post-decision part of `main`

`math.hypot` is the genuine Euclidean length, modelled in `ℝ`.  The greedy
selection compares these lengths; since the square root is strictly
monotone on nonnegatives, those comparisons coincide with the rational
`sqDist` comparisons used in the computable `greedyOrder` (proved below).
Real addition is associative, so the left-to-right float accumulation of
`main`'s distance loop is modelled by a straight recursive sum.
-/

/-- `euclidean_distance(p1, p2) = math.hypot(p1[0]-p2[0], p1[1]-p2[1])`. -/
noncomputable def euclidean_distance (p1 p2 : ℚ × ℚ) : ℝ :=
  Real.sqrt (((p1.1 : ℝ) - (p2.1 : ℝ)) ^ 2 + ((p1.2 : ℝ) - (p2.2 : ℝ)) ^ 2)

/-- The distance loop of `main`: sum of consecutive pairwise distances over
`position[:2]`. -/
noncomputable def totalDistance : List RouteWaypoint → ℝ
  | a :: b :: rest => euclidean_distance (pos2 a) (pos2 b) + totalDistance (b :: rest)
  | _ => 0

/-- Python `round(x, 2)` on a real value (round half to even). -/
noncomputable def pyRoundRHalfEven (x : ℝ) : ℤ :=
  if x - (⌊x⌋ : ℝ) < 1/2 then ⌊x⌋
  else if (1 : ℝ)/2 < x - (⌊x⌋ : ℝ) then ⌊x⌋ + 1
  else if ⌊x⌋ % 2 = 0 then ⌊x⌋ else ⌊x⌋ + 1

noncomputable def pyRoundR2 (x : ℝ) : ℝ := ((pyRoundRHalfEven (x * 100) : ℝ)) / 100

/-- The `final_plan` record built by `main`. -/
structure InspectionPlan where
  timestamp : String
  source : String
  decision_reason : String
  total_distance_meters : ℝ
  waypoints : List RouteWaypoint

/-- The assembly step of `main`: the distance loop at full precision, then
`round(total_dist, 2)` in the final record only. -/
noncomputable def assemble_plan (decision_reason : String)
    (ordered_waypoints : List RouteWaypoint) : InspectionPlan :=
  { timestamp := "2026-02-14T10:00:00"
    source := "Qwen3Max_TSP_EntranceToExit_Chinese"
    decision_reason := decision_reason
    total_distance_meters := pyRoundR2 (totalDistance ordered_waypoints)
    waypoints := ordered_waypoints }

/-- The `middle_waypoints` chosen by `main`: enrichment runs only when the
recovered decision is truthy (`if llm_output:`). -/
def middleOf (point_dict : Registry) (llm_output : Option Decision) : List RouteWaypoint :=
  match llm_output with
  | some d => if d.truthy then enrich_with_coordinates d point_dict else []
  | none => []

/-- The `decision_reason` chosen by `main`: the default, overridden by
`llm_output.get("decision_reason", "无说明")` when the decision is truthy. -/
def reasonOf (llm_output : Option Decision) : String :=
  match llm_output with
  | some d => if d.truthy then d.decision_reason.getD "无说明" else "无任务点，仅通行"
  | none => "无任务点，仅通行"

/-- `main` after the decision call: ordering, then assembly.  A
`ValueError` from the ordering step is caught by `main`, which returns
without writing the output resource; `Except.error` models that aborted,
output-less run. -/
noncomputable def mainAfterLLM (point_dict : Registry) (llm_output : Option Decision) :
    Except String InspectionPlan :=
  (solve_tsp_with_fixed_ends (middleOf point_dict llm_output) point_dict).map
    (assemble_plan (reasonOf llm_output))

def planReason : Except String InspectionPlan → Option String
  | Except.ok p => some p.decision_reason
  | Except.error _ => none

def planWaypoints : Except String InspectionPlan → Option (List RouteWaypoint)
  | Except.ok p => some p.waypoints
  | Except.error _ => none

/-- Specification-side restatement of the distance loop: the sum over the
list of consecutive position pairs. -/
noncomputable def consecPairSum (ps : List (ℚ × ℚ)) : ℝ :=
  ((ps.zip ps.tail).map (fun ab => euclidean_distance ab.1 ab.2)).sum

/-- Specification-side selection predicate of the enricher: the item names
a registry point, non-empty, and not the entry/exit node. -/
def keepItem (point_dict : Registry) (item : DecisionItem) : Bool :=
  match item.point_name with
  | none => false
  | some name =>
    if name = "" then false
    else if (point_dict name).isNone then false
    else if name = entryName ∨ name = exitName then false
    else true

/-- Specification-side record builder for a kept item (total; the junk
branches are unreachable for kept items). -/
def mkEnriched (point_dict : Registry) (item : DecisionItem) : RouteWaypoint :=
  match item.point_name with
  | none => { point_name := "", position := (0, 0, 0),
              action := action_map item.action, arm_task_type := 0 }
  | some name =>
    match point_dict name with
    | none => { point_name := name, position := (0, 0, 0),
                action := action_map item.action, arm_task_type := 0 }
    | some p => { point_name := name, position := roundPos p,
                  action := action_map item.action, arm_task_type := p.arm_task }

/-!
## Concrete fixtures

The worked example of the specification (entry at the origin, exit at
(10,0), task points A and B equidistant from the entry), and small inputs
exercising the edge cases of the claims.
-/

def regC2 : Registry := fun n =>
  if n = entryName then some ⟨0, 0, 0, 0⟩
  else if n = exitName then some ⟨10, 0, 0, 0⟩
  else if n = "A" then some ⟨5, 5, 0, 2⟩
  else if n = "B" then some ⟨5, -5, 0, 1⟩
  else none

def wpA : RouteWaypoint := ⟨"A", (5, 5, 0), "execute_arm_task_2", 2⟩

def wpB : RouteWaypoint := ⟨"B", (5, -5, 0), "execute_arm_task_1", 1⟩

def entC2 : RouteWaypoint := ⟨entryName, (0, 0, 0), "arrive", 0⟩

def exC2 : RouteWaypoint := ⟨exitName, (10, 0, 0), "arrive", 0⟩

/-- Like `wpA` but with the "arrive" action, as enrichment produces for an
item `point_name = "A", action = "arrive"`. -/
def wpAarrive : RouteWaypoint := ⟨"A", (5, 5, 0), "arrive", 2⟩

/-- A decision naming the same waypoint twice. -/
def dDup : Decision := ⟨some "dup", some [⟨some "A", some "arrive"⟩, ⟨some "A", some "arrive"⟩]⟩

/-- A registry containing a point whose name is the empty string. -/
def regEmptyName : Registry := fun n => if n = "" then some ⟨1, 2, 3, 0⟩ else none

/-- A decision naming the empty-string point. -/
def dEmptyName : Decision := ⟨some "r", some [⟨some "", some "arrive"⟩]⟩

/-- A recovered, truthy decision without a `decision_reason` key. -/
def dNoReason : Decision := ⟨none, some []⟩

/-- A recovered, truthy decision with an empty inspection plan. -/
def dTransit : Decision := ⟨some "w", some []⟩

/-- A registry with no points at all (entry and exit both missing). -/
def regMissing : Registry := fun _ => none

/-!
## Lemmas about the greedy selection
-/

lemma pyMinBy_eq_none_iff {key : RouteWaypoint → ℚ} {l : List RouteWaypoint} :
    pyMinBy key l = none ↔ l = [] := by
  cases l with
  | nil => simp [pyMinBy]
  | cons a ws =>
    simp only [pyMinBy]
    cases pyMinBy key ws <;> simp

lemma pyMinBy_mem {key : RouteWaypoint → ℚ} {l : List RouteWaypoint} {w : RouteWaypoint}
    (h : pyMinBy key l = some w) : w ∈ l := by
  induction l generalizing w with
  | nil => simp [pyMinBy] at h
  | cons a ws ih =>
    simp only [pyMinBy] at h
    cases hw : pyMinBy key ws with
    | none =>
      rw [hw] at h
      injection h with h
      subst h
      exact List.mem_cons_self a ws
    | some m =>
      rw [hw] at h
      injection h with h
      by_cases hlt : key m < key a
      · rw [if_pos hlt] at h
        subst h
        exact List.mem_cons_of_mem a (ih hw)
      · rw [if_neg hlt] at h
        subst h
        exact List.mem_cons_self a ws

/-- `pyMinBy` returns the earliest minimum: the element at some index `i`
whose key is strictly below every earlier key and at most every key. -/
lemma pyMinBy_spec {key : RouteWaypoint → ℚ} {l : List RouteWaypoint} {w : RouteWaypoint}
    (h : pyMinBy key l = some w) :
    ∃ i : ℕ, ∃ hi : i < l.length, l.get ⟨i, hi⟩ = w
      ∧ (∀ v ∈ l.take i, key w < key v)
      ∧ (∀ v ∈ l, key w ≤ key v) := by
  induction l generalizing w with
  | nil => simp [pyMinBy] at h
  | cons a ws ih =>
    simp only [pyMinBy] at h
    cases hw : pyMinBy key ws with
    | none =>
      rw [hw] at h
      injection h with h
      subst h
      have hnil : ws = [] := pyMinBy_eq_none_iff.mp hw
      subst hnil
      refine ⟨0, by simp, rfl, by simp, ?_⟩
      intro v hv
      rcases List.mem_cons.mp hv with hva | hvt
      · rw [hva]
      · simp at hvt
    | some m =>
      rw [hw] at h
      injection h with h
      by_cases hlt : key m < key a
      · rw [if_pos hlt] at h
        subst h
        obtain ⟨i, hi, hget, htake, hmin⟩ := ih hw
        refine ⟨i + 1, Nat.succ_lt_succ hi, hget, ?_, ?_⟩
        · intro v hv
          rw [List.take_succ_cons] at hv
          rcases List.mem_cons.mp hv with hva | hvt
          · rw [hva]; exact hlt
          · exact htake v hvt
        · intro v hv
          rcases List.mem_cons.mp hv with hva | hvt
          · rw [hva]; exact le_of_lt hlt
          · exact hmin v hvt
      · rw [if_neg hlt] at h
        subst h
        obtain ⟨i, hi, hget, htake, hmin⟩ := ih hw
        refine ⟨0, by simp, rfl, by simp, ?_⟩
        intro v hv
        rcases List.mem_cons.mp hv with hva | hvt
        · rw [hva]
        · exact le_trans (not_lt.mp hlt) (hmin v hvt)

lemma greedyGo_succ (fuel : ℕ) (cur : ℚ × ℚ) (l : List RouteWaypoint) (w : RouteWaypoint)
    (hmin : pyMinBy (nnKey cur) l = some w) :
    greedyGo (fuel + 1) cur l = w :: greedyGo fuel (pos2 w) (l.erase w) := by
  simp only [greedyGo]
  rw [hmin]

lemma greedyGo_nil (fuel : ℕ) (cur : ℚ × ℚ) : greedyGo fuel cur [] = [] := by
  cases fuel <;> rfl

/-- Any sufficient fuel computes the same greedy order. -/
lemma greedyGo_eq_of_le :
    ∀ (fuel : ℕ) (cur : ℚ × ℚ) (l : List RouteWaypoint),
      l.length ≤ fuel → greedyGo fuel cur l = greedyGo l.length cur l := by
  intro fuel
  induction fuel using Nat.strong_induction_on with
  | _ fuel ih =>
    intro cur l hle
    cases l with
    | nil => rw [greedyGo_nil, greedyGo_nil]
    | cons a ws =>
      cases fuel with
      | zero => simp at hle
      | succ f =>
        cases hmin : pyMinBy (nnKey cur) (a :: ws) with
        | none => exact absurd (pyMinBy_eq_none_iff.mp hmin) (by simp)
        | some w =>
          have hwmem : w ∈ a :: ws := pyMinBy_mem hmin
          have hlen : ((a :: ws).erase w).length = ws.length := by
            rw [List.length_erase_of_mem hwmem]
            simp
          have hlength : (a :: ws).length = ws.length + 1 := rfl
          rw [hlength, greedyGo_succ f cur _ w hmin, greedyGo_succ ws.length cur _ w hmin]
          have h1 : greedyGo f (pos2 w) ((a :: ws).erase w)
              = greedyGo ((a :: ws).erase w).length (pos2 w) ((a :: ws).erase w) := by
            apply ih f (Nat.lt_succ_self f)
            rw [hlen]
            simp only [hlength] at hle
            omega
          have h2 : greedyGo ws.length (pos2 w) ((a :: ws).erase w)
              = greedyGo ((a :: ws).erase w).length (pos2 w) ((a :: ws).erase w) := by
            apply ih ws.length (by simp only [hlength] at hle; omega)
            rw [hlen]
          rw [h1, h2]

/-- The greedy order is a permutation of its input pool. -/
lemma greedyGo_perm :
    ∀ (fuel : ℕ) (cur : ℚ × ℚ) (l : List RouteWaypoint),
      l.length ≤ fuel → (greedyGo fuel cur l).Perm l := by
  intro fuel
  induction fuel with
  | zero =>
    intro cur l h
    have : l = [] := List.length_eq_zero.mp (Nat.le_zero.mp h)
    subst this
    rw [greedyGo_nil]
  | succ fuel ih =>
    intro cur l h
    cases l with
    | nil => rw [greedyGo_nil]
    | cons a ws =>
      cases hmin : pyMinBy (nnKey cur) (a :: ws) with
      | none => exact absurd (pyMinBy_eq_none_iff.mp hmin) (by simp)
      | some w =>
        have hwmem : w ∈ a :: ws := pyMinBy_mem hmin
        rw [greedyGo_succ fuel cur _ w hmin]
        have hlen : ((a :: ws).erase w).length ≤ fuel := by
          rw [List.length_erase_of_mem hwmem]
          simp at h ⊢
          omega
        exact ((ih (pos2 w) _ hlen).cons w).trans (List.perm_cons_erase hwmem).symm

lemma greedyOrder_perm (cur : ℚ × ℚ) (l : List RouteWaypoint) :
    (greedyOrder cur l).Perm l :=
  greedyGo_perm l.length cur l le_rfl

/-- One unfolding step of the greedy loop. -/
lemma greedyOrder_cons {cur : ℚ × ℚ} {l : List RouteWaypoint} (hne : l ≠ []) :
    ∃ w, pyMinBy (nnKey cur) l = some w ∧
      greedyOrder cur l = w :: greedyOrder (pos2 w) (l.erase w) := by
  cases hmin : pyMinBy (nnKey cur) l with
  | none => exact absurd (pyMinBy_eq_none_iff.mp hmin) hne
  | some w =>
    refine ⟨w, rfl, ?_⟩
    have hwmem : w ∈ l := pyMinBy_mem hmin
    cases l with
    | nil => exact absurd rfl hne
    | cons a ws =>
      have hlen : ((a :: ws).erase w).length = ws.length := by
        rw [List.length_erase_of_mem hwmem]
        simp
      show greedyGo (ws.length + 1) cur (a :: ws) = _
      rw [greedyGo_succ ws.length cur _ w hmin]
      unfold greedyOrder
      rw [hlen]

/-!
## Lemmas about `solve_tsp_with_fixed_ends`, distances, and enrichment
-/

lemma solve_tsp_nil {point_dict : Registry} {ent ex : PatrolPoint}
    (hent : point_dict entryName = some ent) (hex : point_dict exitName = some ex) :
    solve_tsp_with_fixed_ends [] point_dict =
      Except.ok [mkEndpoint entryName ent, mkEndpoint exitName ex] := by
  simp [solve_tsp_with_fixed_ends, hent, hex]

lemma solve_tsp_cons {middle : List RouteWaypoint} {point_dict : Registry}
    {ent ex : PatrolPoint}
    (hent : point_dict entryName = some ent) (hex : point_dict exitName = some ex)
    (hm : middle ≠ []) :
    solve_tsp_with_fixed_ends middle point_dict =
      Except.ok (mkEndpoint entryName ent ::
        (greedyOrder (pos2 (mkEndpoint entryName ent)) middle ++ [mkEndpoint exitName ex])) := by
  simp [solve_tsp_with_fixed_ends, hent, hex, hm]

lemma solve_tsp_shape (middle : List RouteWaypoint) {point_dict : Registry}
    {ent ex : PatrolPoint}
    (hent : point_dict entryName = some ent) (hex : point_dict exitName = some ex) :
    ∃ mid, solve_tsp_with_fixed_ends middle point_dict =
        Except.ok (mkEndpoint entryName ent :: (mid ++ [mkEndpoint exitName ex]))
      ∧ mid.Perm middle := by
  by_cases hm : middle = []
  · subst hm
    exact ⟨[], solve_tsp_nil hent hex, List.Perm.refl []⟩
  · exact ⟨greedyOrder (pos2 (mkEndpoint entryName ent)) middle,
      solve_tsp_cons hent hex hm, greedyOrder_perm _ middle⟩

lemma solve_tsp_error (middle : List RouteWaypoint) {point_dict : Registry}
    (h : point_dict entryName = none ∨ point_dict exitName = none) :
    ∃ msg, solve_tsp_with_fixed_ends middle point_dict = Except.error msg := by
  rcases h with h | h
  · exact ⟨"patrol_points_arm.yaml 中缺少 入口 点", by simp [solve_tsp_with_fixed_ends, h]⟩
  · cases hent : point_dict entryName with
    | none => exact ⟨"patrol_points_arm.yaml 中缺少 入口 点",
        by simp [solve_tsp_with_fixed_ends, hent]⟩
    | some ent => exact ⟨"patrol_points_arm.yaml 中缺少 出口 点",
        by simp [solve_tsp_with_fixed_ends, hent, h]⟩

lemma solve_tsp_ok_inv {middle route : List RouteWaypoint} {point_dict : Registry}
    (h : solve_tsp_with_fixed_ends middle point_dict = Except.ok route) :
    ∃ ent ex mid, point_dict entryName = some ent ∧ point_dict exitName = some ex ∧
      route = mkEndpoint entryName ent :: (mid ++ [mkEndpoint exitName ex]) ∧
      mid.Perm middle := by
  cases hent : point_dict entryName with
  | none => simp [solve_tsp_with_fixed_ends, hent] at h
  | some ent =>
    cases hex : point_dict exitName with
    | none => simp [solve_tsp_with_fixed_ends, hent, hex] at h
    | some ex =>
      obtain ⟨mid, heq, hperm⟩ := solve_tsp_shape middle hent hex
      rw [heq] at h
      injection h with h
      exact ⟨ent, ex, mid, rfl, rfl, h.symm, hperm⟩

lemma sqDist_nonneg (p q : ℚ × ℚ) : 0 ≤ sqDist p q := by
  unfold sqDist
  positivity

lemma euclidean_eq_sqrt_sqDist (p q : ℚ × ℚ) :
    euclidean_distance p q = Real.sqrt ((sqDist p q : ℚ) : ℝ) := by
  unfold euclidean_distance sqDist
  congr 1
  push_cast
  ring

lemma euclidean_le_iff (a b c : ℚ × ℚ) :
    euclidean_distance a b ≤ euclidean_distance a c ↔ sqDist a b ≤ sqDist a c := by
  rw [euclidean_eq_sqrt_sqDist, euclidean_eq_sqrt_sqDist,
    Real.sqrt_le_sqrt_iff (by exact_mod_cast sqDist_nonneg a c)]
  exact_mod_cast Iff.rfl

lemma euclidean_lt_iff (a b c : ℚ × ℚ) :
    euclidean_distance a b < euclidean_distance a c ↔ sqDist a b < sqDist a c := by
  rw [euclidean_eq_sqrt_sqDist, euclidean_eq_sqrt_sqDist,
    Real.sqrt_lt_sqrt_iff (by exact_mod_cast sqDist_nonneg a b)]
  exact_mod_cast Iff.rfl

lemma totalDistance_eq_consec (ws : List RouteWaypoint) :
    totalDistance ws = consecPairSum (ws.map pos2) := by
  induction ws with
  | nil => simp [totalDistance, consecPairSum]
  | cons a tail ih =>
    cases tail with
    | nil => simp [totalDistance, consecPairSum]
    | cons b rest =>
      rw [show totalDistance (a :: b :: rest)
          = euclidean_distance (pos2 a) (pos2 b) + totalDistance (b :: rest) from rfl, ih]
      simp [consecPairSum]

lemma enrichItem_eq (point_dict : Registry) (item : DecisionItem) :
    enrichItem point_dict item =
      if keepItem point_dict item then some (mkEnriched point_dict item) else none := by
  unfold enrichItem keepItem mkEnriched
  cases item.point_name with
  | none => rfl
  | some name =>
    by_cases h1 : name = ""
    · simp [h1]
    · cases hl : point_dict name with
      | none => simp [h1, hl]
      | some p =>
        by_cases h2 : name = entryName ∨ name = exitName
        · simp [h1, hl, h2]
        · simp [h1, hl, h2]

lemma enrich_eq_filter_map (items : List DecisionItem) (point_dict : Registry) :
    items.filterMap (enrichItem point_dict)
      = (items.filter (keepItem point_dict)).map (mkEnriched point_dict) := by
  induction items with
  | nil => rfl
  | cons it rest ih =>
    simp only [List.filterMap_cons, List.filter_cons]
    rw [enrichItem_eq]
    by_cases hk : keepItem point_dict it
    · simp [hk, ih]
    · simp [hk, ih]

lemma planReason_main {point_dict : Registry} {llm : Option Decision} {ent ex : PatrolPoint}
    (hent : point_dict entryName = some ent) (hex : point_dict exitName = some ex) :
    planReason (mainAfterLLM point_dict llm) = some (reasonOf llm) := by
  obtain ⟨mid, heq, _⟩ := solve_tsp_shape (middleOf point_dict llm) hent hex
  unfold mainAfterLLM
  rw [heq]
  rfl

lemma planWaypoints_main_nil {point_dict : Registry} {llm : Option Decision}
    {ent ex : PatrolPoint}
    (hent : point_dict entryName = some ent) (hex : point_dict exitName = some ex)
    (hm : middleOf point_dict llm = []) :
    planWaypoints (mainAfterLLM point_dict llm)
      = some [mkEndpoint entryName ent, mkEndpoint exitName ex] := by
  unfold mainAfterLLM
  rw [hm, solve_tsp_nil hent hex]
  rfl

/-!
## Claim theorems
-/

/-- C1: for every registry containing the entry and exit nodes and every
list of n enriched intermediate waypoints, the route ordering returns a
sequence of length n+2 whose first element is the entry record and last the
exit record, whose intermediate segment is exactly a permutation of the
input list; for n = 0 it returns exactly [entry, exit]. -/
theorem route_shape_c1 (middle_waypoints : List RouteWaypoint) (point_dict : Registry)
    (ent ex : PatrolPoint)
    (hent : point_dict entryName = some ent) (hex : point_dict exitName = some ex) :
    ∃ mid : List RouteWaypoint,
      solve_tsp_with_fixed_ends middle_waypoints point_dict =
        Except.ok (mkEndpoint entryName ent :: (mid ++ [mkEndpoint exitName ex]))
      ∧ mid.Perm middle_waypoints
      ∧ (mkEndpoint entryName ent :: (mid ++ [mkEndpoint exitName ex])).length
          = middle_waypoints.length + 2
      ∧ (middle_waypoints = [] → mid = []) := by
  obtain ⟨mid, heq, hperm⟩ := solve_tsp_shape middle_waypoints hent hex
  refine ⟨mid, heq, hperm, ?_, ?_⟩
  · simp [hperm.length_eq]
  · intro h0
    subst h0
    exact hperm.eq_nil

/-- Witness for C1 at the example registry with one intermediate point. -/
theorem route_shape_c1_witness :
    ∃ mid : List RouteWaypoint,
      solve_tsp_with_fixed_ends [wpA] regC2 =
        Except.ok (mkEndpoint entryName ⟨0, 0, 0, 0⟩ :: (mid ++ [mkEndpoint exitName ⟨10, 0, 0, 0⟩]))
      ∧ mid.Perm [wpA]
      ∧ (mkEndpoint entryName ⟨0, 0, 0, 0⟩ :: (mid ++ [mkEndpoint exitName ⟨10, 0, 0, 0⟩])).length
          = [wpA].length + 2
      ∧ ([wpA] = [] → mid = []) :=
  route_shape_c1 [wpA] regC2 ⟨0, 0, 0, 0⟩ ⟨10, 0, 0, 0⟩ rfl rfl

/-- C2: the route ordering is the greedy nearest-neighbour schedule.  The
greedy loop starts from the entry record's (x, y); at each step it picks
the pool element at the minimal Euclidean distance from the current
position, breaking ties by the earliest input position, and recurses from
the chosen waypoint; and on the worked example registry the route is
entry, A, B, exit with total length within 0.01 of 24.14. -/
theorem greedy_schedule_c2 :
    (∀ (middle : List RouteWaypoint) (point_dict : Registry) (ent ex : PatrolPoint),
      point_dict entryName = some ent → point_dict exitName = some ex → middle ≠ [] →
      solve_tsp_with_fixed_ends middle point_dict =
        Except.ok (mkEndpoint entryName ent ::
          (greedyOrder (pos2 (mkEndpoint entryName ent)) middle ++ [mkEndpoint exitName ex])))
    ∧ (∀ (cur : ℚ × ℚ) (l : List RouteWaypoint), l ≠ [] →
      ∃ w : RouteWaypoint, ∃ i : ℕ, ∃ hi : i < l.length,
        greedyOrder cur l = w :: greedyOrder (pos2 w) (l.erase w)
        ∧ l.get ⟨i, hi⟩ = w
        ∧ (∀ v ∈ l, euclidean_distance cur (pos2 w) ≤ euclidean_distance cur (pos2 v))
        ∧ (∀ v ∈ l.take i, euclidean_distance cur (pos2 w) < euclidean_distance cur (pos2 v)))
    ∧ solve_tsp_with_fixed_ends [wpA, wpB] regC2 = Except.ok [entC2, wpA, wpB, exC2]
    ∧ |totalDistance [entC2, wpA, wpB, exC2] - 24.14| < 0.01 := by
  refine ⟨?_, ?_, ?_, ?_⟩
  · intro middle pd ent ex hent hex hm
    exact solve_tsp_cons hent hex hm
  · intro cur l hne
    obtain ⟨w, hmin, hstep⟩ := greedyOrder_cons hne
    obtain ⟨i, hi, hget, htake, hle⟩ := pyMinBy_spec hmin
    refine ⟨w, i, hi, hstep, hget, ?_, ?_⟩
    · intro v hv
      rw [euclidean_le_iff]
      exact hle v hv
    · intro v hv
      rw [euclidean_lt_iff]
      exact htake v hv
  · with_unfolding_all rfl
  · have e1 : euclidean_distance (pos2 entC2) (pos2 wpA) = Real.sqrt 50 := by
      unfold euclidean_distance
      congr 1
      norm_num [entC2, wpA, pos2]
    have e2 : euclidean_distance (pos2 wpA) (pos2 wpB) = 10 := by
      have h100 : euclidean_distance (pos2 wpA) (pos2 wpB) = Real.sqrt 100 := by
        unfold euclidean_distance
        congr 1
        norm_num [wpA, wpB, pos2]
      rw [h100, show (100 : ℝ) = 10 ^ 2 by norm_num, Real.sqrt_sq (by norm_num : (0:ℝ) ≤ 10)]
    have e3 : euclidean_distance (pos2 wpB) (pos2 exC2) = Real.sqrt 50 := by
      unfold euclidean_distance
      congr 1
      norm_num [wpB, exC2, pos2]
    have htot : totalDistance [entC2, wpA, wpB, exC2]
        = euclidean_distance (pos2 entC2) (pos2 wpA)
          + (euclidean_distance (pos2 wpA) (pos2 wpB)
            + (euclidean_distance (pos2 wpB) (pos2 exC2) + 0)) := rfl
    rw [htot, e1, e2, e3]
    have h50lo : (7.071 : ℝ) < Real.sqrt 50 := by
      rw [Real.lt_sqrt (by norm_num : (0:ℝ) ≤ 7.071)]
      norm_num
    have h50hi : Real.sqrt 50 < 7.072 := by
      rw [Real.sqrt_lt' (by norm_num : (0:ℝ) < 7.072)]
      norm_num
    rw [abs_lt]
    constructor <;> linarith

/-- Witness for C2: one greedy step and the ordering operation at the
example registry with a single intermediate point. -/
theorem greedy_schedule_c2_witness :
    solve_tsp_with_fixed_ends [wpA] regC2 =
      Except.ok (mkEndpoint entryName ⟨0, 0, 0, 0⟩ ::
        (greedyOrder (pos2 (mkEndpoint entryName ⟨0, 0, 0, 0⟩)) [wpA]
          ++ [mkEndpoint exitName ⟨10, 0, 0, 0⟩]))
    ∧ ∃ w : RouteWaypoint, ∃ i : ℕ, ∃ hi : i < [wpA].length,
        greedyOrder (0, 0) [wpA] = w :: greedyOrder (pos2 w) ([wpA].erase w)
        ∧ [wpA].get ⟨i, hi⟩ = w
        ∧ (∀ v ∈ [wpA], euclidean_distance (0, 0) (pos2 w) ≤ euclidean_distance (0, 0) (pos2 v))
        ∧ (∀ v ∈ [wpA].take i,
            euclidean_distance (0, 0) (pos2 w) < euclidean_distance (0, 0) (pos2 v)) :=
  ⟨greedy_schedule_c2.1 [wpA] regC2 ⟨0, 0, 0, 0⟩ ⟨10, 0, 0, 0⟩ rfl rfl (by simp),
   greedy_schedule_c2.2.1 (0, 0) [wpA] (by simp)⟩

/-- C4: when the registry lacks the entry node or the exit node, the route
ordering returns the configuration error, and the modelled `main` run ends
in that error — no plan value is produced (the Python `main` catches the
`ValueError`, prints it and returns before writing the output file). -/
theorem config_error_c4 (point_dict : Registry) (llm_output : Option Decision)
    (h : point_dict entryName = none ∨ point_dict exitName = none) :
    ∃ msg : String,
      solve_tsp_with_fixed_ends (middleOf point_dict llm_output) point_dict = Except.error msg
      ∧ mainAfterLLM point_dict llm_output = Except.error msg := by
  obtain ⟨msg, hmsg⟩ := solve_tsp_error (middleOf point_dict llm_output) h
  refine ⟨msg, hmsg, ?_⟩
  unfold mainAfterLLM
  rw [hmsg]
  rfl

/-- Witness for C4 at the empty registry. -/
theorem config_error_c4_witness :
    ∃ msg : String,
      solve_tsp_with_fixed_ends (middleOf regMissing none) regMissing = Except.error msg
      ∧ mainAfterLLM regMissing none = Except.error msg :=
  config_error_c4 regMissing none (Or.inl rfl)

/-- C9: in every route produced by the ordering operation, the first and
last records carry action "arrive" and task code 0, whatever task codes the
registry stores for the entry and exit points. -/
theorem endpoints_fixed_c9 (middle_waypoints route : List RouteWaypoint) (point_dict : Registry)
    (h : solve_tsp_with_fixed_ends middle_waypoints point_dict = Except.ok route) :
    ∃ h0 t0 : RouteWaypoint,
      route.head? = some h0 ∧ route.getLast? = some t0
      ∧ h0.point_name = entryName ∧ h0.action = "arrive" ∧ h0.arm_task_type = 0
      ∧ t0.point_name = exitName ∧ t0.action = "arrive" ∧ t0.arm_task_type = 0 := by
  obtain ⟨ent, ex, mid, -, -, hroute, -⟩ := solve_tsp_ok_inv h
  subst hroute
  refine ⟨mkEndpoint entryName ent, mkEndpoint exitName ex, rfl, ?_, rfl, rfl, rfl, rfl, rfl, rfl⟩
  have hsh : mkEndpoint entryName ent :: (mid ++ [mkEndpoint exitName ex])
      = (mkEndpoint entryName ent :: mid) ++ [mkEndpoint exitName ex] := by simp
  rw [hsh, List.getLast?_concat]

/-- Witness for C9: a registry storing nonzero task codes on entry and exit
still yields "arrive"/0 end records. -/
theorem endpoints_fixed_c9_witness :
    ∃ h0 t0 : RouteWaypoint,
      ([mkEndpoint entryName ⟨0, 0, 0, 2⟩, mkEndpoint exitName ⟨10, 0, 0, 1⟩].head? = some h0)
      ∧ ([mkEndpoint entryName ⟨0, 0, 0, 2⟩, mkEndpoint exitName ⟨10, 0, 0, 1⟩].getLast? = some t0)
      ∧ h0.point_name = entryName ∧ h0.action = "arrive" ∧ h0.arm_task_type = 0
      ∧ t0.point_name = exitName ∧ t0.action = "arrive" ∧ t0.arm_task_type = 0 :=
  endpoints_fixed_c9 []
    [mkEndpoint entryName ⟨0, 0, 0, 2⟩, mkEndpoint exitName ⟨10, 0, 0, 1⟩]
    (fun n => if n = entryName then some ⟨0, 0, 0, 2⟩
      else if n = exitName then some ⟨10, 0, 0, 1⟩ else none) rfl

/-- C5 counterexample: the claim fails as stated.  A decision item whose
point name is the empty string, with that name present in the registry and
distinct from entry/exit, is nevertheless dropped: the Python guard
`if not name` treats a present-but-empty name as missing. -/
theorem enrich_c5_counterexample :
    enrich_with_coordinates dEmptyName regEmptyName = []
    ∧ regEmptyName "" = some ⟨1, 2, 3, 0⟩
    ∧ ¬("" = entryName) ∧ ¬("" = exitName)
    ∧ (dEmptyName.inspection_plan.getD []).length = 1 :=
  ⟨rfl, rfl, by decide, by decide, rfl⟩

/-- C5 amended: the enricher returns, in the decision's original item
order, exactly those items whose point name is present, NON-EMPTY, in the
registry, and neither the entry nor the exit node; any action code outside
the recognized set (including a missing one) maps to "unknown". -/
theorem enrich_selection_c5_amended (d : Decision) (point_dict : Registry) :
    enrich_with_coordinates d point_dict
      = ((d.inspection_plan.getD []).filter (keepItem point_dict)).map (mkEnriched point_dict)
    ∧ (∀ a : Option String,
        a ∉ [some "arrive", some "task_1", some "task_2"] → action_map a = "unknown") := by
  constructor
  · exact enrich_eq_filter_map _ _
  · intro a ha
    cases a with
    | none => rfl
    | some s =>
      simp only [List.mem_cons, List.not_mem_nil, or_false, not_or] at ha
      unfold action_map
      split <;> simp_all

/-- Witness for C5 at a concrete decision and an unrecognized action code. -/
theorem enrich_selection_c5_witness :
    enrich_with_coordinates dDup regC2
      = ((dDup.inspection_plan.getD []).filter (keepItem regC2)).map (mkEnriched regC2)
    ∧ action_map (some "fly") = "unknown" :=
  ⟨(enrich_selection_c5_amended dDup regC2).1,
   (enrich_selection_c5_amended dDup regC2).2 (some "fly") (by decide)⟩

/-- C6 counterexample: the claim fails as stated.  A decision naming
waypoint A twice yields a route in which A — neither the entry nor the exit
node — appears twice: neither the enricher nor the ordering deduplicates. -/
theorem route_dup_c6_counterexample :
    solve_tsp_with_fixed_ends (enrich_with_coordinates dDup regC2) regC2
      = Except.ok [entC2, wpAarrive, wpAarrive, exC2]
    ∧ 1 < List.count wpAarrive [entC2, wpAarrive, wpAarrive, exC2]
    ∧ wpAarrive.point_name ≠ entryName ∧ wpAarrive.point_name ≠ exitName := by
  refine ⟨by with_unfolding_all rfl, by decide, by decide, by decide⟩

/-- C6 amended: provided the enriched intermediate list is duplicate-free
(in particular whenever the decision names each waypoint at most once), no
waypoint other than the entry and exit records appears more than once in
the produced route. -/
theorem route_nodup_c6_amended (d : Decision) (point_dict : Registry) (ent ex : PatrolPoint)
    (hent : point_dict entryName = some ent) (hex : point_dict exitName = some ex)
    (hnd : (enrich_with_coordinates d point_dict).Nodup) :
    ∀ route, solve_tsp_with_fixed_ends (enrich_with_coordinates d point_dict) point_dict
        = Except.ok route →
      ∀ w : RouteWaypoint, w.point_name ≠ entryName → w.point_name ≠ exitName →
        route.count w ≤ 1 := by
  intro route hroute w hw1 hw2
  obtain ⟨ent2, ex2, mid, hent2, hex2, hshape, hperm⟩ := solve_tsp_ok_inv hroute
  subst hshape
  have hws : w ≠ mkEndpoint entryName ent2 := by
    intro hcon
    exact hw1 (by rw [hcon]; rfl)
  have hwe : w ≠ mkEndpoint exitName ex2 := by
    intro hcon
    exact hw2 (by rw [hcon]; rfl)
  have h1 : List.count w (mkEndpoint entryName ent2 :: (mid ++ [mkEndpoint exitName ex2]))
      = List.count w mid := by
    simp [List.count_cons, List.count_append, hws, hwe]
  rw [h1, hperm.count_eq w]
  exact List.nodup_iff_count_le_one.mp hnd w

/-- Witness for C6 at a duplicate-free (empty) enriched list. -/
theorem route_nodup_c6_witness :
    List.count wpAarrive [mkEndpoint entryName ⟨0, 0, 0, 0⟩, mkEndpoint exitName ⟨10, 0, 0, 0⟩]
      ≤ 1 :=
  route_nodup_c6_amended dTransit regC2 ⟨0, 0, 0, 0⟩ ⟨10, 0, 0, 0⟩ rfl rfl (by decide)
    [mkEndpoint entryName ⟨0, 0, 0, 0⟩, mkEndpoint exitName ⟨10, 0, 0, 0⟩] rfl
    wpAarrive (by decide) (by decide)

/-- C7: the assembled plan's total distance field is the full-precision sum
of the 2D Euclidean distances between consecutive pairs of (x, y)
positions, rounded to two decimals only in the final record; it depends
only on the (x, y) projections, so the carried z coordinate is excluded. -/
theorem plan_distance_c7 (decision_reason : String) (ws ws2 : List RouteWaypoint) :
    (assemble_plan decision_reason ws).total_distance_meters
      = pyRoundR2 (consecPairSum (ws.map pos2))
    ∧ (assemble_plan decision_reason ws).waypoints = ws
    ∧ (ws.map pos2 = ws2.map pos2 →
        (assemble_plan decision_reason ws).total_distance_meters
          = (assemble_plan decision_reason ws2).total_distance_meters) := by
  refine ⟨?_, rfl, ?_⟩
  · show pyRoundR2 (totalDistance ws) = pyRoundR2 (consecPairSum (ws.map pos2))
    rw [totalDistance_eq_consec]
  · intro hxy
    show pyRoundR2 (totalDistance ws) = pyRoundR2 (totalDistance ws2)
    rw [totalDistance_eq_consec, totalDistance_eq_consec, hxy]

/-- Witness for C7: two routes differing only in z have the same total. -/
theorem plan_distance_c7_witness :
    (assemble_plan "r" [wpA]).total_distance_meters
      = pyRoundR2 (consecPairSum ([wpA].map pos2))
    ∧ (assemble_plan "r" [wpA]).waypoints = [wpA]
    ∧ (assemble_plan "r" [wpA]).total_distance_meters
      = (assemble_plan "r" [⟨"A", (5, 5, 9), "execute_arm_task_2", 2⟩]).total_distance_meters :=
  ⟨(plan_distance_c7 "r" [wpA] [wpA]).1, (plan_distance_c7 "r" [wpA] [wpA]).2.1,
   (plan_distance_c7 "r" [wpA] [⟨"A", (5, 5, 9), "execute_arm_task_2", 2⟩]).2.2 (by decide)⟩

/-- C8 counterexample: the claim fails as stated.  A recovered (truthy)
decision without a `decision_reason` key yields the secondary default
"无说明", which is neither a verbatim decision reasoning nor the fixed
no-decision default "无任务点，仅通行". -/
theorem plan_reason_c8_counterexample :
    planReason (mainAfterLLM regC2 (some dNoReason)) = some "无说明"
    ∧ dNoReason.decision_reason = none
    ∧ dNoReason.truthy = true
    ∧ "无说明" ≠ "无任务点，仅通行" :=
  ⟨rfl, rfl, rfl, by decide⟩

/-- C8 amended: the plan's reasoning is the decision's reasoning verbatim
when a truthy decision with a `decision_reason` key was recovered; the
secondary default "无说明" when a truthy decision lacks the key; and the
fixed default "无任务点，仅通行" when no decision was recovered or the
recovered object is empty (falsy) — in those no-decision cases the route is
exactly [entry, exit]. -/
theorem plan_reason_c8_amended (point_dict : Registry) (ent ex : PatrolPoint)
    (hent : point_dict entryName = some ent) (hex : point_dict exitName = some ex) :
    (∀ (d : Decision) (r : String), d.truthy = true → d.decision_reason = some r →
      planReason (mainAfterLLM point_dict (some d)) = some r)
    ∧ (∀ d : Decision, d.truthy = true → d.decision_reason = none →
      planReason (mainAfterLLM point_dict (some d)) = some "无说明")
    ∧ (∀ d : Decision, d.truthy = false →
      planReason (mainAfterLLM point_dict (some d)) = some "无任务点，仅通行"
      ∧ planWaypoints (mainAfterLLM point_dict (some d))
          = some [mkEndpoint entryName ent, mkEndpoint exitName ex])
    ∧ planReason (mainAfterLLM point_dict none) = some "无任务点，仅通行"
    ∧ planWaypoints (mainAfterLLM point_dict none)
        = some [mkEndpoint entryName ent, mkEndpoint exitName ex] := by
  refine ⟨?_, ?_, ?_, ?_, ?_⟩
  · intro d r htr hdr
    rw [planReason_main hent hex]
    simp [reasonOf, htr, hdr]
  · intro d htr hdr
    rw [planReason_main hent hex]
    simp [reasonOf, htr, hdr]
  · intro d htr
    constructor
    · rw [planReason_main hent hex]
      simp [reasonOf, htr]
    · exact planWaypoints_main_nil hent hex (by simp [middleOf, htr])
  · rw [planReason_main hent hex]
    rfl
  · exact planWaypoints_main_nil hent hex rfl

/-- Witness for C8: a decision with a reasoning, and the no-decision run. -/
theorem plan_reason_c8_witness :
    planReason (mainAfterLLM regC2 (some ⟨some "verbatim", some []⟩)) = some "verbatim"
    ∧ planReason (mainAfterLLM regC2 none) = some "无任务点，仅通行" :=
  ⟨(plan_reason_c8_amended regC2 ⟨0, 0, 0, 0⟩ ⟨10, 0, 0, 0⟩ rfl rfl).1
      ⟨some "verbatim", some []⟩ "verbatim" rfl rfl,
   (plan_reason_c8_amended regC2 ⟨0, 0, 0, 0⟩ ⟨10, 0, 0, 0⟩ rfl rfl).2.2.2.1⟩

/-- C3: the parser tries the three extraction tiers in strict order —
whole trimmed text, fenced-block group, greedy brace span — returning the
first successfully parsed candidate; when all fail it returns the explicit
no-result, and an exception during the decision-service call makes
`call_llm` return the explicit no-decision result (it is a total function:
it never raises). -/
theorem extract_tiers_c3 (text : String) :
    ((json_loads (pyStrip text)).isSome = true →
      extract_json_from_text text = some (pyStrip text))
    ∧ (json_loads (pyStrip text) = none →
      ∀ g : String, fencedSearch (pyStrip text).data = some g →
        (json_loads g).isSome = true → extract_json_from_text text = some g)
    ∧ (json_loads (pyStrip text) = none →
      (∀ g : String, fencedSearch (pyStrip text).data = some g → json_loads g = none) →
      ∀ b : String, braceSpan (pyStrip text) = some b →
        (json_loads b).isSome = true → extract_json_from_text text = some b)
    ∧ (json_loads (pyStrip text) = none →
      (∀ g : String, fencedSearch (pyStrip text).data = some g → json_loads g = none) →
      (∀ b : String, braceSpan (pyStrip text) = some b → json_loads b = none) →
      extract_json_from_text text = none)
    ∧ (∀ e : String, call_llm (LLMCallOutcome.raised e) = none) := by
  refine ⟨?_, ?_, ?_, ?_, fun e => rfl⟩
  · intro h
    simp [extract_json_from_text, h]
  · intro h1 g hg hgp
    simp [extract_json_from_text, h1, hg, hgp]
  · intro h1 h2 b hb hbp
    cases hfs : fencedSearch (pyStrip text).data with
    | none => simp [extract_json_from_text, h1, hfs, braceTier, hb, hbp]
    | some g =>
      have hgn := h2 g hfs
      simp [extract_json_from_text, h1, hfs, hgn, braceTier, hb, hbp]
  · intro h1 h2 h3
    cases hfs : fencedSearch (pyStrip text).data with
    | none =>
      cases hbs : braceSpan (pyStrip text) with
      | none => simp [extract_json_from_text, h1, hfs, braceTier, hbs]
      | some b => simp [extract_json_from_text, h1, hfs, braceTier, hbs, h3 b hbs]
    | some g =>
      have hgn := h2 g hfs
      cases hbs : braceSpan (pyStrip text) with
      | none => simp [extract_json_from_text, h1, hfs, hgn, braceTier, hbs]
      | some b => simp [extract_json_from_text, h1, hfs, hgn, braceTier, hbs, h3 b hbs]

/-- Witness for C3 at the minimal object text. -/
theorem extract_tiers_c3_witness :
    (json_loads (pyStrip "\x7b\x7d")).isSome = true
    ∧ extract_json_from_text "\x7b\x7d" = some (pyStrip "\x7b\x7d") :=
  ⟨rfl, (extract_tiers_c3 "\x7b\x7d").1 rfl⟩

/-- C10: tier 1 accepts any valid top-level JSON value, not only objects —
the array text "[1, 2]" (containing no brace at all) succeeds at tier 1 and
is yielded by `call_llm` as the recovered decision. -/
theorem tier1_array_c10 :
    json_loads "[1, 2]" = some (Json.arr [Json.num 1, Json.num 2])
    ∧ extract_json_from_text "[1, 2]" = some "[1, 2]"
    ∧ call_llm (LLMCallOutcome.ok 200 "[1, 2]") = some (Json.arr [Json.num 1, Json.num 2])
    ∧ "[1, 2]".data.all (fun c => !(c = lbraceChar)) = true := by
  refine ⟨by with_unfolding_all rfl, rfl, by with_unfolding_all rfl, rfl⟩
